import Mathlib

/-!
Shallow embedding of `src/sr-algorithm.ts` (the Anki-style SM-2 scheduler of
obsidian-notedeck).  Numbers (`number` in TypeScript) are modelled as
rationals `ℚ`; timestamps (`Date`) are modelled as rational milliseconds since
the epoch; `Math.floor` is `Int.floor`.  `setNextDueDays` in the source adds
calendar days via `Date.setDate`; it is modelled here as adding
`days * 86400000` milliseconds (fixed-length days).
Spec vocabulary vs source vocabulary: rating Fail = `Again`, Pass = `Good`;
phase Acquiring = `Learning`, Retaining = `Review`, Relapsed = `Relearning`;
`dueTimestamp` = `dueDate`, `identifier` = `id`.
-/

namespace NoteDeck

/-- Source `export type Rating`: Again, Hard, Good, Easy. -/
inductive Rating where
  | Again
  | Hard
  | Good
  | Easy
deriving DecidableEq, Repr

/-- Source `export type CardState`: New, Learning, Review, Relearning. -/
inductive CardState where
  | New
  | Learning
  | Review
  | Relearning
deriving DecidableEq, Repr

/-- Source `export interface Card` from sr-algorithm.ts. -/
structure Card where
  id : String
  state : CardState
  interval : ℚ
  easeFactor : ℚ
  stepIndex : ℕ
  dueDate : ℚ
deriving DecidableEq, Repr

/-- Source `export interface SchedulerSettings` from sr-algorithm.ts. -/
structure SchedulerSettings where
  learningSteps : List ℚ
  graduatingInterval : ℚ
  easyInterval : ℚ
  startingEase : ℚ
  minEase : ℚ
  easyBonus : ℚ
  hardIntervalMultiplier : ℚ
deriving DecidableEq, Repr

/-- The defaults installed by the `AnkiScheduler` constructor when no
override is supplied. -/
def defaultSettings : SchedulerSettings where
  learningSteps := [1, 10]
  graduatingInterval := 1
  easyInterval := 4
  startingEase := 2.5
  minEase := 1.3
  easyBonus := 1.3
  hardIntervalMultiplier := 1.2

/-- Source helper `setNextDueMinutes`: due becomes now plus `minutes * 60000` ms. -/
def setNextDueMinutes (card : Card) (minutes : ℚ) (now : ℚ) : Card :=
  { card with dueDate := now + minutes * 60000 }

/-- Source helper `setNextDueDays`: adds `days` days to `now` (source uses `Date.setDate`;
modelled as `days * 86400000` milliseconds). -/
def setNextDueDays (card : Card) (days : ℚ) (now : ℚ) : Card :=
  { card with dueDate := now + days * 86400000 }

/-- Source lookup `this.settings.learningSteps[i]`; total via a default of `0` for an
out-of-range index (the claims only use in-range indices). -/
def stepAt (s : SchedulerSettings) (i : ℕ) : ℚ :=
  s.learningSteps.getD i 0

/-- Source expression `card.easeFactor || this.settings.startingEase`: JavaScript or takes the
right operand exactly when `card.easeFactor` is falsy, i.e. `0`. -/
def easeOrStarting (s : SchedulerSettings) (ease : ℚ) : ℚ :=
  if ease = 0 then s.startingEase else ease

/-- Source `AnkiScheduler.handleLearning` (phases New/Learning/Relearning),
written as a pure function on the cloned card. -/
def handleLearning (s : SchedulerSettings) (card : Card) (rating : Rating) (now : ℚ) : Card :=
  match rating with
  | .Again =>
      setNextDueMinutes { card with stepIndex := 0 } (stepAt s 0) now
  | .Hard =>
      setNextDueMinutes card (stepAt s card.stepIndex) now
  | .Good =>
      if card.stepIndex < s.learningSteps.length - 1 then
        let card := { card with stepIndex := card.stepIndex + 1 }
        let card := setNextDueMinutes card (stepAt s card.stepIndex) now
        { card with state := .Learning }
      else
        let card := { card with
                      state := .Review
                      interval := s.graduatingInterval
                      easeFactor := easeOrStarting s card.easeFactor }
        setNextDueDays card card.interval now
  | .Easy =>
      let card := { card with
                    state := .Review
                    interval := s.easyInterval
                    easeFactor := easeOrStarting s card.easeFactor }
      setNextDueDays card card.interval now

/-- Source `AnkiScheduler.handleReview` (phase Review).  Each arm yields the card
after its in-arm mutations together with `newInterval` and `newEase`; the
final record update is the source's trailing "apply changes" block, where
`interval` is written back only when the card is still in `Review`. -/
def handleReview (s : SchedulerSettings) (card : Card) (rating : Rating) (now : ℚ) : Card :=
  let armResult : Card × ℚ × ℚ :=
    match rating with
    | .Again =>
        (setNextDueMinutes { card with state := .Relearning, stepIndex := 0 } (stepAt s 0) now,
         card.interval,
         max s.minEase (card.easeFactor - 0.20))
    | .Hard =>
        let newInterval : ℚ := ⌊card.interval * s.hardIntervalMultiplier⌋
        (setNextDueDays card newInterval now,
         newInterval,
         max s.minEase (card.easeFactor - 0.15))
    | .Good =>
        let newInterval : ℚ := ⌊card.interval * card.easeFactor⌋
        (setNextDueDays card newInterval now,
         newInterval,
         card.easeFactor)
    | .Easy =>
        let newInterval : ℚ := ⌊card.interval * card.easeFactor * s.easyBonus⌋
        (setNextDueDays card newInterval now,
         newInterval,
         card.easeFactor + 0.15)
  let c := armResult.1
  { c with
    easeFactor := armResult.2.2
    interval := if c.state = .Review then armResult.2.1 else c.interval }

/-- Source `AnkiScheduler.schedule`: clones the card and dispatches on its state.
The clone plus field mutations of the source are modelled by pure record
updates, so the input record is unmodified by construction. -/
def schedule (s : SchedulerSettings) (card : Card) (rating : Rating) (now : ℚ) : Card :=
  match card.state with
  | .New => handleLearning s card rating now
  | .Learning => handleLearning s card rating now
  | .Review => handleReview s card rating now
  | .Relearning => handleLearning s card rating now

/-- The acquisition-like phases of the spec (New, Acquiring, Relapsed),
i.e. the states `schedule` dispatches to `handleLearning`. -/
def isAcquisitionLike (st : CardState) : Bool :=
  match st with
  | .New => true
  | .Learning => true
  | .Relearning => true
  | .Review => false

/-- The §3 record invariants the claims quantify over: `easeFactor ≥ minEase`,
`interval ≥ 0`, and `stepIndex` a valid index into `learningSteps`. -/
def ValidCard (s : SchedulerSettings) (c : Card) : Prop :=
  s.minEase ≤ c.easeFactor ∧ 0 ≤ c.interval ∧ c.stepIndex < s.learningSteps.length

/-- Well-formedness of a configuration, as described by the §3 configuration
table: minute steps are non-negative and a step exists, the day-scale
graduation intervals are non-negative, the multipliers are non-negative,
and the ease floor is positive and at most the starting ease. -/
def ValidSettings (s : SchedulerSettings) : Prop :=
  (∀ x ∈ s.learningSteps, 0 ≤ x) ∧ s.learningSteps ≠ [] ∧
  0 ≤ s.graduatingInterval ∧ 0 ≤ s.easyInterval ∧
  0 < s.minEase ∧ s.minEase ≤ s.startingEase ∧
  0 ≤ s.easyBonus ∧ 0 ≤ s.hardIntervalMultiplier

theorem defaultSettings_valid : ValidSettings defaultSettings := by
  refine ⟨?_, ?_, ?_, ?_, ?_, ?_, ?_, ?_⟩ <;>
    simp [defaultSettings] <;> norm_num

/-- A record freshly created by the collaborator: phase New, interval 0,
ease = configured default, step 0, due = creation time. -/
def initialCard (cid : String) (t : ℚ) : Card :=
  { id := cid
    state := .New
    interval := 0
    easeFactor := defaultSettings.startingEase
    stepIndex := 0
    dueDate := t }

/-- Records reachable from a freshly created record by repeated `schedule`
calls under the default configuration. -/
inductive Reachable : Card → Prop where
  | base (cid : String) (t : ℚ) : Reachable (initialCard cid t)
  | step (c : Card) (r : Rating) (now : ℚ) :
      Reachable c → Reachable (schedule defaultSettings c r now)

lemma stepAt_nonneg (s : SchedulerSettings) (h : ∀ x ∈ s.learningSteps, 0 ≤ x) (i : ℕ) :
    0 ≤ stepAt s i := by
  unfold stepAt List.getD
  cases hq : s.learningSteps.get? i with
  | none => simp
  | some a => simpa using h a (List.get?_mem hq)

lemma handleLearning_ease (s : SchedulerSettings) (c : Card) (r : Rating) (now : ℚ)
    (hse : s.minEase ≤ s.startingEase) (he : s.minEase ≤ c.easeFactor) :
    s.minEase ≤ (handleLearning s c r now).easeFactor := by
  cases r with
  | Again => simpa [handleLearning, setNextDueMinutes] using he
  | Hard => simpa [handleLearning, setNextDueMinutes] using he
  | Good =>
      by_cases hk : c.stepIndex < s.learningSteps.length - 1
      · simpa [handleLearning, setNextDueMinutes, hk] using he
      · by_cases hz : c.easeFactor = 0
        · simpa [handleLearning, setNextDueDays, easeOrStarting, hk, hz] using hse
        · simpa [handleLearning, setNextDueDays, easeOrStarting, hk, hz] using he
  | Easy =>
      by_cases hz : c.easeFactor = 0
      · simpa [handleLearning, setNextDueDays, easeOrStarting, hz] using hse
      · simpa [handleLearning, setNextDueDays, easeOrStarting, hz] using he

lemma handleLearning_interval (s : SchedulerSettings) (c : Card) (r : Rating) (now : ℚ)
    (hgi : 0 ≤ s.graduatingInterval) (hei : 0 ≤ s.easyInterval) (hi : 0 ≤ c.interval) :
    0 ≤ (handleLearning s c r now).interval := by
  cases r with
  | Again => simpa [handleLearning, setNextDueMinutes] using hi
  | Hard => simpa [handleLearning, setNextDueMinutes] using hi
  | Good =>
      by_cases hk : c.stepIndex < s.learningSteps.length - 1
      · simpa [handleLearning, setNextDueMinutes, hk] using hi
      · simpa [handleLearning, setNextDueDays, hk] using hgi
  | Easy => simpa [handleLearning, setNextDueDays] using hei

lemma handleLearning_due (s : SchedulerSettings) (c : Card) (r : Rating) (now : ℚ)
    (hsteps : ∀ x ∈ s.learningSteps, 0 ≤ x)
    (hgi : 0 ≤ s.graduatingInterval) (hei : 0 ≤ s.easyInterval) :
    now ≤ (handleLearning s c r now).dueDate := by
  have h0 := stepAt_nonneg s hsteps 0
  have hk0 := stepAt_nonneg s hsteps c.stepIndex
  have hk1 := stepAt_nonneg s hsteps (c.stepIndex + 1)
  cases r with
  | Again => simp [handleLearning, setNextDueMinutes]; linarith
  | Hard => simp [handleLearning, setNextDueMinutes]; linarith
  | Good =>
      by_cases hk : c.stepIndex < s.learningSteps.length - 1
      · simp [handleLearning, setNextDueMinutes, hk]; linarith
      · simp [handleLearning, setNextDueDays, hk]; linarith
  | Easy => simp [handleLearning, setNextDueDays]; linarith

lemma handleReview_ease (s : SchedulerSettings) (c : Card) (r : Rating) (now : ℚ)
    (he : s.minEase ≤ c.easeFactor) :
    s.minEase ≤ (handleReview s c r now).easeFactor := by
  cases r with
  | Again => simp [handleReview, setNextDueMinutes]
  | Hard => simp [handleReview, setNextDueDays]
  | Good => simpa [handleReview, setNextDueDays] using he
  | Easy => simp [handleReview, setNextDueDays]; linarith

lemma handleReview_interval (s : SchedulerSettings) (c : Card) (r : Rating) (now : ℚ)
    (hm : 0 ≤ s.hardIntervalMultiplier) (hb : 0 ≤ s.easyBonus)
    (he0 : 0 ≤ c.easeFactor) (hi : 0 ≤ c.interval) :
    0 ≤ (handleReview s c r now).interval := by
  have hf1 : 0 ≤ ⌊c.interval * s.hardIntervalMultiplier⌋ :=
    Int.floor_nonneg.mpr (mul_nonneg hi hm)
  have hf2 : 0 ≤ ⌊c.interval * c.easeFactor⌋ :=
    Int.floor_nonneg.mpr (mul_nonneg hi he0)
  have hf3 : 0 ≤ ⌊c.interval * c.easeFactor * s.easyBonus⌋ :=
    Int.floor_nonneg.mpr (mul_nonneg (mul_nonneg hi he0) hb)
  by_cases hst : c.state = CardState.Review <;>
    cases r <;>
      simp [handleReview, setNextDueMinutes, setNextDueDays, hst] <;>
      first
      | exact hi
      | exact hf1
      | exact hf2
      | exact hf3

lemma handleReview_due (s : SchedulerSettings) (c : Card) (r : Rating) (now : ℚ)
    (hsteps : ∀ x ∈ s.learningSteps, 0 ≤ x)
    (hm : 0 ≤ s.hardIntervalMultiplier) (hb : 0 ≤ s.easyBonus)
    (he0 : 0 ≤ c.easeFactor) (hi : 0 ≤ c.interval) :
    now ≤ (handleReview s c r now).dueDate := by
  have h0 := stepAt_nonneg s hsteps 0
  have hf1 : 0 ≤ ⌊c.interval * s.hardIntervalMultiplier⌋ :=
    Int.floor_nonneg.mpr (mul_nonneg hi hm)
  have hf2 : 0 ≤ ⌊c.interval * c.easeFactor⌋ :=
    Int.floor_nonneg.mpr (mul_nonneg hi he0)
  have hf3 : 0 ≤ ⌊c.interval * c.easeFactor * s.easyBonus⌋ :=
    Int.floor_nonneg.mpr (mul_nonneg (mul_nonneg hi he0) hb)
  cases r <;>
    simp [handleReview, setNextDueMinutes, setNextDueDays] <;>
    first
    | exact hf1
    | exact hf2
    | exact hf3
    | linarith

lemma schedule_ease (s : SchedulerSettings) (c : Card) (r : Rating) (now : ℚ)
    (hs : ValidSettings s) (he : s.minEase ≤ c.easeFactor) :
    s.minEase ≤ (schedule s c r now).easeFactor := by
  obtain ⟨hsteps, hne, hgi, hei, hme, hse, hb, hm⟩ := hs
  cases hst : c.state <;>
    simp [schedule, hst] <;>
    first
    | exact handleLearning_ease s c r now hse he
    | exact handleReview_ease s c r now he

lemma schedule_interval (s : SchedulerSettings) (c : Card) (r : Rating) (now : ℚ)
    (hs : ValidSettings s) (he : s.minEase ≤ c.easeFactor) (hi : 0 ≤ c.interval) :
    0 ≤ (schedule s c r now).interval := by
  obtain ⟨hsteps, hne, hgi, hei, hme, hse, hb, hm⟩ := hs
  have he0 : (0 : ℚ) ≤ c.easeFactor := le_trans (le_of_lt hme) he
  cases hst : c.state <;>
    simp [schedule, hst] <;>
    first
    | exact handleLearning_interval s c r now hgi hei hi
    | exact handleReview_interval s c r now hm hb he0 hi

lemma schedule_due (s : SchedulerSettings) (c : Card) (r : Rating) (now : ℚ)
    (hs : ValidSettings s) (he : s.minEase ≤ c.easeFactor) (hi : 0 ≤ c.interval) :
    now ≤ (schedule s c r now).dueDate := by
  obtain ⟨hsteps, hne, hgi, hei, hme, hse, hb, hm⟩ := hs
  have he0 : (0 : ℚ) ≤ c.easeFactor := le_trans (le_of_lt hme) he
  cases hst : c.state <;>
    simp [schedule, hst] <;>
    first
    | exact handleLearning_due s c r now hsteps hgi hei
    | exact handleReview_due s c r now hsteps hm hb he0 hi

lemma schedule_step_lt_default (c : Card) (r : Rating) (now : ℚ)
    (hk : c.stepIndex < 2) :
    (schedule defaultSettings c r now).stepIndex < 2 := by
  cases hst : c.state <;> cases r <;>
    simp [schedule, hst, handleLearning, handleReview, setNextDueMinutes, setNextDueDays,
      easeOrStarting, defaultSettings] <;>
    (try split_ifs) <;> (try simp) <;> omega

lemma reachable_inv (c : Card) (h : Reachable c) :
    defaultSettings.minEase ≤ c.easeFactor ∧ 0 ≤ c.interval ∧ c.stepIndex < 2 := by
  induction h with
  | base cid t =>
      refine ⟨?_, ?_, ?_⟩ <;> norm_num [initialCard, defaultSettings]
  | step c r now _ ih =>
      exact ⟨schedule_ease defaultSettings c r now defaultSettings_valid ih.1,
        schedule_interval defaultSettings c r now defaultSettings_valid ih.1 ih.2.1,
        schedule_step_lt_default c r now ih.2.2⟩

/-! Concrete records used in witnesses, taken from the §8 scenarios. -/

def cardA : Card := ⟨"a", .New, 0, 2.5, 0, 0⟩

def cardB : Card := ⟨"b", .Learning, 0, 2.5, 1, 0⟩

def cardC : Card := ⟨"c", .Review, 10, 2.5, 1, 0⟩

def cardE : Card := ⟨"e", .Review, 10, 1.35, 1, 0⟩

def cardR : Card := ⟨"r", .Relearning, 10, 2.3, 1, 0⟩

example : schedule defaultSettings cardA .Good 0 = ⟨"a", .Learning, 0, 2.5, 1, 600000⟩ := by
  simp [schedule, cardA, defaultSettings, handleLearning, setNextDueMinutes, stepAt,
    Card.mk.injEq]
  norm_num

example : schedule defaultSettings cardB .Good 0 = ⟨"b", .Review, 1, 2.5, 1, 86400000⟩ := by
  simp [schedule, cardB, defaultSettings, handleLearning, setNextDueDays, easeOrStarting,
    Card.mk.injEq]

example : schedule defaultSettings cardC .Easy 0 = ⟨"c", .Review, 32, 2.65, 1, 2764800000⟩ := by
  simp [schedule, cardC, defaultSettings, handleReview, setNextDueDays, Card.mk.injEq]
  norm_num

example : schedule defaultSettings cardC .Again 0 = ⟨"c", .Relearning, 10, 2.3, 0, 60000⟩ := by
  simp [schedule, cardC, defaultSettings, handleReview, setNextDueMinutes, stepAt,
    Card.mk.injEq]
  norm_num

example : schedule defaultSettings cardE .Hard 0 = ⟨"e", .Review, 12, 1.3, 1, 1036800000⟩ := by
  simp [schedule, cardE, defaultSettings, handleReview, setNextDueDays, Card.mk.injEq]
  norm_num

/-- C1: for every configuration satisfying the §3 configuration description,
every record satisfying the §3 invariants, every rating, every phase and every
instant, `schedule` returns a record with `easeFactor ≥ minEase` and
`interval ≥ 0`. -/
theorem C1_schedule_ease_floor_interval_nonneg (s : SchedulerSettings) (c : Card)
    (r : Rating) (now : ℚ) (hs : ValidSettings s) (hc : ValidCard s c) :
    s.minEase ≤ (schedule s c r now).easeFactor ∧ 0 ≤ (schedule s c r now).interval :=
  ⟨schedule_ease s c r now hs hc.1, schedule_interval s c r now hs hc.1 hc.2.1⟩

theorem C1_witness :
    defaultSettings.minEase ≤ (schedule defaultSettings cardC .Good 0).easeFactor ∧
      0 ≤ (schedule defaultSettings cardC .Good 0).interval :=
  C1_schedule_ease_floor_interval_nonneg defaultSettings cardC .Good 0
    defaultSettings_valid (by norm_num [ValidCard, cardC, defaultSettings])

/-- C2: for every configuration satisfying the §3 configuration description
(in particular all `learningSteps` entries non-negative), every record
satisfying the §3 invariants, every rating and every `now`, the due timestamp
of `schedule record rating now` is at least `now`. -/
theorem C2_due_never_in_past (s : SchedulerSettings) (c : Card)
    (r : Rating) (now : ℚ) (hs : ValidSettings s) (hc : ValidCard s c) :
    now ≤ (schedule s c r now).dueDate :=
  schedule_due s c r now hs hc.1 hc.2.1

theorem C2_witness : (5 : ℚ) ≤ (schedule defaultSettings cardA .Again 5).dueDate :=
  C2_due_never_in_past defaultSettings cardA .Again 5
    defaultSettings_valid (by norm_num [ValidCard, cardA, defaultSettings])

/-- C3: a record in phase Retaining (`Review`) rated Fail (`Again`) relapses:
state becomes `Relearning`, `stepIndex` resets to 0,
`easeFactor = max minEase (easeFactor - 0.20)`, the due date is
`now + learningSteps[0]` minutes (not days), and `interval` is left
unchanged. -/
theorem C3_retaining_fail_relapse (s : SchedulerSettings) (c : Card) (now : ℚ)
    (h : c.state = CardState.Review) :
    (schedule s c .Again now).state = CardState.Relearning ∧
    (schedule s c .Again now).stepIndex = 0 ∧
    (schedule s c .Again now).easeFactor = max s.minEase (c.easeFactor - 0.20) ∧
    (schedule s c .Again now).dueDate = now + stepAt s 0 * 60000 ∧
    (schedule s c .Again now).interval = c.interval := by
  simp [schedule, h, handleReview, setNextDueMinutes]

theorem C3_witness :
    (schedule defaultSettings cardC .Again 0).state = CardState.Relearning ∧
    (schedule defaultSettings cardC .Again 0).stepIndex = 0 ∧
    (schedule defaultSettings cardC .Again 0).easeFactor =
      max defaultSettings.minEase (cardC.easeFactor - 0.20) ∧
    (schedule defaultSettings cardC .Again 0).dueDate = 0 + stepAt defaultSettings 0 * 60000 ∧
    (schedule defaultSettings cardC .Again 0).interval = cardC.interval :=
  C3_retaining_fail_relapse defaultSettings cardC 0 rfl

/-- C4: every record reachable by repeated `schedule` calls from a freshly
created record under the default configuration keeps `easeFactor ≥ minEase`,
`interval ≥ 0`, and a `stepIndex` that is a valid index into `learningSteps`
whenever the record is in an acquisition-like phase. -/
theorem C4_reachable_records_keep_invariants (c : Card) (h : Reachable c) :
    defaultSettings.minEase ≤ c.easeFactor ∧ 0 ≤ c.interval ∧
      (isAcquisitionLike c.state = true →
        c.stepIndex < defaultSettings.learningSteps.length) :=
  ⟨(reachable_inv c h).1, (reachable_inv c h).2.1, fun _ => (reachable_inv c h).2.2⟩

theorem C4_witness :
    defaultSettings.minEase ≤ (schedule defaultSettings (initialCard "x" 0) .Good 3).easeFactor ∧
      0 ≤ (schedule defaultSettings (initialCard "x" 0) .Good 3).interval ∧
      (isAcquisitionLike (schedule defaultSettings (initialCard "x" 0) .Good 3).state = true →
        (schedule defaultSettings (initialCard "x" 0) .Good 3).stepIndex <
          defaultSettings.learningSteps.length) :=
  C4_reachable_records_keep_invariants _
    (Reachable.step (initialCard "x" 0) .Good 3 (Reachable.base "x" 0))

/-- C5: a record in an acquisition-like phase rated Pass (`Good`) either
advances one learning step (phase `Learning`, `stepIndex + 1`, due in
`learningSteps[stepIndex + 1]` minutes) when `stepIndex` is not the last
index, or graduates (phase `Review`, `interval = graduatingInterval`, due in
`graduatingInterval` days) when it is the last index. -/
theorem C5_acquisition_pass (s : SchedulerSettings) (c : Card) (now : ℚ)
    (hacq : isAcquisitionLike c.state = true)
    (hstep : c.stepIndex < s.learningSteps.length) :
    (c.stepIndex ≠ s.learningSteps.length - 1 →
      (schedule s c .Good now).state = CardState.Learning ∧
      (schedule s c .Good now).stepIndex = c.stepIndex + 1 ∧
      (schedule s c .Good now).dueDate = now + stepAt s (c.stepIndex + 1) * 60000) ∧
    (c.stepIndex = s.learningSteps.length - 1 →
      (schedule s c .Good now).state = CardState.Review ∧
      (schedule s c .Good now).interval = s.graduatingInterval ∧
      (schedule s c .Good now).dueDate = now + s.graduatingInterval * 86400000) := by
  constructor
  · intro hne
    have hk : c.stepIndex < s.learningSteps.length - 1 := by omega
    cases hst : c.state <;> simp [isAcquisitionLike, hst] at hacq <;>
      simp [schedule, hst, handleLearning, setNextDueMinutes, hk]
  · intro heq
    have hk : ¬ c.stepIndex < s.learningSteps.length - 1 := by omega
    cases hst : c.state <;> simp [isAcquisitionLike, hst] at hacq <;>
      simp [schedule, hst, handleLearning, setNextDueDays, easeOrStarting, hk]

theorem C5_witness :
    (cardA.stepIndex ≠ defaultSettings.learningSteps.length - 1 →
      (schedule defaultSettings cardA .Good 0).state = CardState.Learning ∧
      (schedule defaultSettings cardA .Good 0).stepIndex = cardA.stepIndex + 1 ∧
      (schedule defaultSettings cardA .Good 0).dueDate =
        0 + stepAt defaultSettings (cardA.stepIndex + 1) * 60000) ∧
    (cardA.stepIndex = defaultSettings.learningSteps.length - 1 →
      (schedule defaultSettings cardA .Good 0).state = CardState.Review ∧
      (schedule defaultSettings cardA .Good 0).interval = defaultSettings.graduatingInterval ∧
      (schedule defaultSettings cardA .Good 0).dueDate =
        0 + defaultSettings.graduatingInterval * 86400000) :=
  C5_acquisition_pass defaultSettings cardA 0 rfl (by norm_num [cardA, defaultSettings])

/-- C6: a record in phase Retaining (`Review`) rated Easy stays in `Review`,
gets `interval = ⌊interval * easeFactor * easyBonus⌋`, gets
`easeFactor + 0.15` with no upper cap, and is due in the new interval in
days. -/
theorem C6_retaining_easy (s : SchedulerSettings) (c : Card) (now : ℚ)
    (h : c.state = CardState.Review) :
    (schedule s c .Easy now).state = CardState.Review ∧
    (schedule s c .Easy now).interval = ((⌊c.interval * c.easeFactor * s.easyBonus⌋ : ℤ) : ℚ) ∧
    (schedule s c .Easy now).easeFactor = c.easeFactor + 0.15 ∧
    (schedule s c .Easy now).dueDate =
      now + ((⌊c.interval * c.easeFactor * s.easyBonus⌋ : ℤ) : ℚ) * 86400000 := by
  simp [schedule, h, handleReview, setNextDueDays]

theorem C6_witness :
    (schedule defaultSettings cardC .Easy 0).state = CardState.Review ∧
    (schedule defaultSettings cardC .Easy 0).interval =
      ((⌊cardC.interval * cardC.easeFactor * defaultSettings.easyBonus⌋ : ℤ) : ℚ) ∧
    (schedule defaultSettings cardC .Easy 0).easeFactor = cardC.easeFactor + 0.15 ∧
    (schedule defaultSettings cardC .Easy 0).dueDate =
      0 + ((⌊cardC.interval * cardC.easeFactor * defaultSettings.easyBonus⌋ : ℤ) : ℚ) * 86400000 :=
  C6_retaining_easy defaultSettings cardC 0 rfl

/-- C7: on graduation (Pass at the last learning step, or Easy, from any
acquisition-like phase) the resulting `easeFactor` is the input `easeFactor`
when it is already set (non-zero, the JavaScript `||` test), and
`startingEase` otherwise; in particular a Relapsed record keeps its
relapse-adjusted ease. -/
theorem C7_graduation_preserves_ease (s : SchedulerSettings) (c : Card) (r : Rating) (now : ℚ)
    (hacq : isAcquisitionLike c.state = true)
    (hgrad : r = Rating.Easy ∨
      (r = Rating.Good ∧ s.learningSteps.length - 1 ≤ c.stepIndex)) :
    (c.easeFactor ≠ 0 → (schedule s c r now).easeFactor = c.easeFactor) ∧
    (c.easeFactor = 0 → (schedule s c r now).easeFactor = s.startingEase) := by
  constructor <;> intro hz <;>
    rcases hgrad with hr | ⟨hr, hlast⟩ <;> subst hr
  · cases hst : c.state <;> simp [isAcquisitionLike, hst] at hacq <;>
      simp [schedule, hst, handleLearning, setNextDueDays, easeOrStarting, hz]
  · have hk : ¬ c.stepIndex < s.learningSteps.length - 1 := by omega
    cases hst : c.state <;> simp [isAcquisitionLike, hst] at hacq <;>
      simp [schedule, hst, handleLearning, setNextDueDays, easeOrStarting, hk, hz]
  · cases hst : c.state <;> simp [isAcquisitionLike, hst] at hacq <;>
      simp [schedule, hst, handleLearning, setNextDueDays, easeOrStarting, hz]
  · have hk : ¬ c.stepIndex < s.learningSteps.length - 1 := by omega
    cases hst : c.state <;> simp [isAcquisitionLike, hst] at hacq <;>
      simp [schedule, hst, handleLearning, setNextDueDays, easeOrStarting, hk, hz]

theorem C7_witness :
    (cardR.easeFactor ≠ 0 →
      (schedule defaultSettings cardR .Easy 0).easeFactor = cardR.easeFactor) ∧
    (cardR.easeFactor = 0 →
      (schedule defaultSettings cardR .Easy 0).easeFactor = defaultSettings.startingEase) :=
  C7_graduation_preserves_ease defaultSettings cardR .Easy 0 rfl (Or.inl rfl)

/-- C8: `schedule` is a pure function in this embedding (the source clones the
card before mutating, so the input record is unmodified by construction), and
it threads the opaque `id` through unchanged. -/
theorem C8_schedule_threads_id (s : SchedulerSettings) (c : Card) (r : Rating) (now : ℚ) :
    (schedule s c r now).id = c.id := by
  cases hst : c.state <;> cases r <;>
    simp [schedule, hst, handleLearning, handleReview, setNextDueMinutes, setNextDueDays,
      easeOrStarting] <;>
    (try split_ifs) <;> (try simp)

/-- C9: a record in an acquisition-like phase rated Fail (`Again`) or Hard
keeps its state, interval and ease factor: only `stepIndex` and the due date
may change; in particular a `New` record stays `New`. -/
theorem C9_acquisition_fail_hard_frame (s : SchedulerSettings) (c : Card) (r : Rating)
    (now : ℚ) (hacq : isAcquisitionLike c.state = true)
    (hr : r = Rating.Again ∨ r = Rating.Hard) :
    (schedule s c r now).state = c.state ∧
    (schedule s c r now).interval = c.interval ∧
    (schedule s c r now).easeFactor = c.easeFactor := by
  rcases hr with hr | hr <;> subst hr <;>
    cases hst : c.state <;> simp [isAcquisitionLike, hst] at hacq <;>
      simp [schedule, hst, handleLearning, setNextDueMinutes]

theorem C9_witness :
    (schedule defaultSettings cardA .Hard 0).state = cardA.state ∧
    (schedule defaultSettings cardA .Hard 0).interval = cardA.interval ∧
    (schedule defaultSettings cardA .Hard 0).easeFactor = cardA.easeFactor :=
  C9_acquisition_fail_hard_frame defaultSettings cardA .Hard 0 rfl (Or.inr rfl)

/-- C10: for a record in an acquisition-like phase, `schedule` does not depend
on the input `interval` except by leaving it in the output's `interval` field:
changing the input interval changes at most the output's `interval` field, and
on a graduating rating (Pass at the last step, or Easy) the two outputs are
fully identical. -/
theorem C10_interval_noninterference (s : SchedulerSettings) (c : Card) (r : Rating)
    (now j : ℚ) (hacq : isAcquisitionLike c.state = true) :
    (schedule s { c with interval := j } r now =
      { schedule s c r now with
        interval := (schedule s { c with interval := j } r now).interval }) ∧
    ((r = Rating.Easy ∨
        (r = Rating.Good ∧ s.learningSteps.length - 1 ≤ c.stepIndex)) →
      schedule s { c with interval := j } r now = schedule s c r now) := by
  rcases c with ⟨cid, st, i, e, k, d⟩
  constructor
  · cases st <;> simp [isAcquisitionLike] at hacq <;>
      cases r <;>
        simp [schedule, handleLearning, setNextDueMinutes, setNextDueDays, easeOrStarting] <;>
        (try split_ifs) <;> simp
  · rintro (hr | ⟨hr, hlast⟩) <;> subst hr
    · cases st <;> simp [isAcquisitionLike] at hacq <;>
        simp [schedule, handleLearning, setNextDueDays, easeOrStarting]
    · have hk : ¬ k < s.learningSteps.length - 1 := by
        have h2 : s.learningSteps.length - 1 ≤ k := hlast
        omega
      cases st <;> simp [isAcquisitionLike] at hacq <;>
        simp [schedule, handleLearning, setNextDueDays, easeOrStarting, hk]

theorem C10_witness :
    (schedule defaultSettings { cardA with interval := 7 } .Again 0 =
      { schedule defaultSettings cardA .Again 0 with
        interval := (schedule defaultSettings { cardA with interval := 7 } .Again 0).interval }) ∧
    ((Rating.Again = Rating.Easy ∨
        (Rating.Again = Rating.Good ∧
          defaultSettings.learningSteps.length - 1 ≤ cardA.stepIndex)) →
      schedule defaultSettings { cardA with interval := 7 } .Again 0 =
        schedule defaultSettings cardA .Again 0) :=
  C10_interval_noninterference defaultSettings cardA .Again 0 7 rfl

end NoteDeck
